import Mathlib

/-!
Verification of the caching and query-refinement pipeline of the
`alfred-stackoverflow` workflow (`src/so.py`).

The Python source is shallowly embedded below:

* pure string helpers (`str.strip`, `str.split`, `str.partition`, `str.join`)
  are modelled over `List Char`;
* `hashlib.sha1(...).hexdigest()` is modelled by a full SHA-1 implementation
  over byte lists (`Nat` values `< 256`), with the FIPS 180 test vectors
  proved below as anchors;
* the stateful parts of `do_search` (file mtime, cache payload, the remote
  response, the external `fzf` process) are passed in explicitly through a
  `SearchWorld` record, and exceptions become `Except` values.
-/

/-! ## Python string helpers (modelled over `List Char`) -/

/-- Whitespace as recognized by Python's `str.strip` / `str.split`
(ASCII part; the sources never rely on non-ASCII whitespace). -/
def pyIsSpace (c : Char) : Bool :=
  c == ' ' || c == '\t' || c == '\n' || c == '\r' || c == '\x0b' || c == '\x0c'

/-- Python `str.strip()`: drop leading and trailing whitespace. -/
def pyStrip (l : List Char) : List Char :=
  ((l.dropWhile pyIsSpace).reverse.dropWhile pyIsSpace).reverse

/-- Python `'//' in s`: does the character list contain two adjacent slashes? -/
def containsSS : List Char → Bool
  | [] => false
  | c :: rest => (c == '/' && rest.head? == some '/') || containsSS rest

/-- Python `s.partition('//')` restricted to the text before and after the
separator: split at the *first* occurrence of `//`; if there is none the
whole input is returned as the first component. -/
def partitionSS : List Char → List Char × List Char
  | [] => ([], [])
  | c :: rest =>
    if c == '/' && rest.head? == some '/' then ([], rest.tail)
    else
      let p := partitionSS rest
      (c :: p.1, p.2)

/-- Helper for `pySplitWS`: accumulate the current (reversed) token. -/
def splitWSAux : List Char → List Char → List (List Char)
  | [], cur => if cur.isEmpty then [] else [cur.reverse]
  | c :: rest, cur =>
    if pyIsSpace c then
      if cur.isEmpty then splitWSAux rest [] else cur.reverse :: splitWSAux rest []
    else splitWSAux rest (c :: cur)

/-- Python `s.split()`: split on whitespace runs, discarding empty tokens. -/
def pySplitWS (l : List Char) : List (List Char) := splitWSAux l []

/-- Python `sep.join(parts)`. -/
def pyJoin (sep : List Char) : List (List Char) → List Char
  | [] => []
  | [x] => x
  | x :: y :: rest => x ++ sep ++ pyJoin sep (y :: rest)

/-! ## `parse_search_query` (so.py lines 406-426) -/

/-- Embedding of `parse_search_query`: returns `(query, tags, additional_query)`. -/
def parse_search_query (s : String) : String × List String × String :=
  let t := pyStrip s.data
  let p :=
    if containsSS t then partitionSS t
    else if t.getLast? == some '/' then (t.dropLast, ([] : List Char))
    else (t, [])
  let words := pySplitWS p.1
  let tags := (words.filter (fun w => w.head? == some '#')).map (fun w => String.mk w.tail)
  let queryWords := words.filter (fun w => !(w.head? == some '#'))
  (String.mk (pyJoin [' '] queryWords), tags, String.mk p.2)

/-! ## SHA-1 (`hashlib.sha1(...).hexdigest()`), over byte lists -/

/-- Rotate a 32-bit word (a `Nat < 2^32`) left by `n`. -/
def rotl32 (n x : Nat) : Nat := ((x <<< n) ||| (x >>> (32 - n))) % 4294967296

/-- The SHA-1 round function for round `t`. -/
def sha1F (t b c d : Nat) : Nat :=
  if t < 20 then (b &&& c) ||| ((b ^^^ 4294967295) &&& d)
  else if t < 40 then b ^^^ c ^^^ d
  else if t < 60 then (b &&& c) ||| (b &&& d) ||| (c &&& d)
  else b ^^^ c ^^^ d

/-- The SHA-1 round constant for round `t`. -/
def sha1K (t : Nat) : Nat :=
  if t < 20 then 1518500249
  else if t < 40 then 1859775393
  else if t < 60 then 2400959708
  else 3395469782

/-- One SHA-1 round: state `(a, b, c, d, e)` and `(round index, schedule word)`. -/
def sha1Round : Nat × Nat × Nat × Nat × Nat → Nat × Nat → Nat × Nat × Nat × Nat × Nat
  | (a, b, c, d, e), (t, w) =>
    ((rotl32 5 a + sha1F t b c d + e + sha1K t + w) % 4294967296, a, rotl32 30 b, c, d)

/-- Group bytes into big-endian 32-bit words. -/
def bytesToWords : List Nat → List Nat
  | b0 :: b1 :: b2 :: b3 :: rest =>
    (((b0 * 256 + b1) * 256 + b2) * 256 + b3) :: bytesToWords rest
  | _ => []

/-- Extend the 16 schedule words to 80 (fuel-driven so that it reduces). -/
def extendW : Nat → List Nat → List Nat
  | 0, ws => ws
  | k + 1, ws =>
    extendW k (ws ++ [rotl32 1 (ws.getD (ws.length - 3) 0 ^^^ ws.getD (ws.length - 8) 0 ^^^
      ws.getD (ws.length - 14) 0 ^^^ ws.getD (ws.length - 16) 0)])

/-- Compress one 64-byte block into the running hash state. -/
def sha1Compress (h : Nat × Nat × Nat × Nat × Nat) (block : List Nat) :
    Nat × Nat × Nat × Nat × Nat :=
  let ws := extendW 64 (bytesToWords block)
  let r := ((List.range 80).zip ws).foldl sha1Round h
  ((h.1 + r.1) % 4294967296,
   (h.2.1 + r.2.1) % 4294967296,
   (h.2.2.1 + r.2.2.1) % 4294967296,
   (h.2.2.2.1 + r.2.2.2.1) % 4294967296,
   (h.2.2.2.2 + r.2.2.2.2) % 4294967296)

/-- Fold `sha1Compress` over the 64-byte blocks of a padded message. -/
def sha1Blocks : Nat → Nat × Nat × Nat × Nat × Nat → List Nat → Nat × Nat × Nat × Nat × Nat
  | 0, h, _ => h
  | _ + 1, h, [] => h
  | fuel + 1, h, bytes => sha1Blocks fuel (sha1Compress h (bytes.take 64)) (bytes.drop 64)

/-- The 8-byte big-endian encoding of the bit length. -/
def lenBytes64 (n : Nat) : List Nat := (List.range 8).map (fun i => (n >>> (8 * (7 - i))) % 256)

/-- SHA-1 padding: `0x80`, zeros to 56 mod 64, then the 64-bit bit length. -/
def sha1Pad (msg : List Nat) : List Nat :=
  msg ++ [128] ++ List.replicate ((119 - msg.length % 64) % 64) 0 ++ lenBytes64 (8 * msg.length)

/-- The five 32-bit words of the SHA-1 digest of a byte list. -/
def sha1Digest (msg : List Nat) : List Nat :=
  let padded := sha1Pad msg
  let h := sha1Blocks (padded.length / 64 + 1)
    (1732584193, 4023233417, 2562383102, 271733878, 3285377520) padded
  [h.1, h.2.1, h.2.2.1, h.2.2.2.1, h.2.2.2.2]

/-- The lowercase hexadecimal alphabet used by `hexdigest`, as code points:
digits start at 48, the letters `a`-`f` at 97. -/
def hexDigits : List Char :=
  (List.range 16).map (fun n => Char.ofNat (if n < 10 then 48 + n else 87 + n))

/-- The hex character of a nibble. -/
def nibbleChar (n : Nat) : Char := hexDigits.getD n '0'

/-- The 8 hex characters of one 32-bit word, most significant nibble first. -/
def wordHexChars (w : Nat) : List Char :=
  (List.range 8).map (fun i => nibbleChar ((w >>> (4 * (7 - i))) % 16))

/-- `hashlib.sha1(msg).hexdigest()` as a character list (always 40 chars). -/
def sha1HexChars (msg : List Nat) : List Char := (sha1Digest msg).flatMap wordHexChars

/-- Python `str.encode('utf-8')` of one code point. -/
def utf8EncodeNat (c : Nat) : List Nat :=
  if c < 128 then [c]
  else if c < 2048 then [192 + c / 64, 128 + c % 64]
  else if c < 65536 then [224 + c / 4096, 128 + (c / 64) % 64, 128 + c % 64]
  else [240 + c / 262144, 128 + (c / 4096) % 64, 128 + (c / 64) % 64, 128 + c % 64]

/-- Python `str.encode('utf-8')` of a character list. -/
def utf8Bytes (l : List Char) : List Nat := l.flatMap (fun c => utf8EncodeNat c.toNat)

/-! ## `CacheDirectory.get_answers_cache` (so.py lines 224-234) -/

/-- The string fed to SHA-1: `'_'.join([site_id, query] + tags)`. -/
def answersCacheJoined (site_id query : String) (tags : List String) : List Char :=
  pyJoin ['_'] ((site_id :: query :: tags).map String.data)

/-- The 12-character cache key: `sha1(...).hexdigest()[:key_len]` with `key_len = 12`. -/
def cacheKey (site_id query : String) (tags : List String) : String :=
  String.mk ((sha1HexChars (utf8Bytes (answersCacheJoined site_id query tags))).take 12)

/-- The answers-cache file name returned by `get_answers_cache` (inside `answers/`). -/
def get_answers_cache (site_id query : String) (tags : List String) : String :=
  cacheKey site_id query tags ++ ".json.gz"

/-! ## `Answer` records and the answered-first sort (so.py lines 19-25, 133-147) -/

/-- One search result, as parsed by `request_parse_search_api`. -/
structure Answer where
  title : String
  link : String
  tags : List String
  is_answered : Bool
  score : Int
deriving DecidableEq

/-- Python `int(a.is_answered)`, the sort key of line 144. -/
def answeredKey (a : Answer) : Nat := if a.is_answered then 1 else 0

/-- Stable insertion for the descending sort by `answeredKey`: an element is
placed before `b` exactly when its key is `≥ answeredKey b`, so that of two
equal-key elements the one earlier in the input stays first. -/
def insertAnsweredDesc (x : Answer) : List Answer → List Answer
  | [] => [x]
  | b :: bs => if answeredKey b ≤ answeredKey x then x :: b :: bs else b :: insertAnsweredDesc x bs

/-- `answers.sort(key=lambda a: int(a.is_answered), reverse=True)`.
Python's `list.sort` is documented stable, and with `reverse=True` elements
comparing equal also keep their relative order; a stable sort is therefore
modelled by stable insertion sort over the same key. -/
def pySortAnswered (l : List Answer) : List Answer := l.foldr insertAnsweredDesc []

/-- The pure core of `request_parse_search_api`: given the `Answer` records
parsed from the response items and the reported `quota_remaining`, it sorts
answered-first (line 144) and returns both. -/
def request_parse_search_api (raw : List Answer) (quota : Int) : List Answer × Int :=
  (pySortAnswered raw, quota)

/-! ## The title dictionary of the fuzzy-narrowing step (so.py lines 454-457) -/

/-- One assignment `d[k] = v` with Python `dict` semantics: an existing key
keeps its position but gets the new value; a new key is appended. -/
def dictInsert (d : List (String × Answer)) (a : Answer) : List (String × Answer) :=
  if d.any (fun p => p.1 == a.title) then
    d.map (fun p => if p.1 == a.title then (a.title, a) else p)
  else d ++ [(a.title, a)]

/-- `{a.title: a for a in answers}`. -/
def buildTitleDict (answers : List Answer) : List (String × Answer) :=
  answers.foldl dictInsert []

/-- `d[k]` (keys are unique, so the first match is the entry). -/
def dictGet (d : List (String × Answer)) (k : String) : Option Answer :=
  (d.find? (fun p => p.1 == k)).map Prod.snd

/-! ## `do_search` (so.py lines 429-497) and `response_written` (276-295) -/

/-- The two recoverable-or-not exceptions that can escape the embedded part of
`do_search`: a corrupt answers cache (`load_answers_from_cache` raising), and
a `KeyError` from indexing the title dictionary with an unknown title. -/
inductive SearchErr where
  | corruptCache
  | keyError
deriving DecidableEq

/-- One Alfred result record, keeping only the structure the claims need:
the low-quota warning, an answer row, the `No answer found` row, and the
error record produced by the `response_written` wrapper. -/
inductive Item where
  | warning : Int → Item
  | answerItem : Answer → Item
  | noAnswer : Item
  | errorItem : SearchErr → Item
deriving DecidableEq

/-- The ambient state one `do_search` invocation reads: the clock, the answers
cache file (`none` mtime = `is_file()` false), what loading that file would
return, what the search API would return (pre-sort items and quota), and the
external `fzf --filter` collaborator. -/
structure SearchWorld where
  now : Int
  mtime : Option Int
  cacheLoad : Except Unit (List Answer)
  remoteItems : List Answer
  remoteQuota : Int
  fzf : String → List String → List String

/-- `older_than(path, seconds)`: `time.time() - os.path.getmtime(path) >= seconds`,
modelled with integer seconds. -/
def older_than (now mtime seconds : Int) : Bool :=
  decide (seconds ≤ now - mtime)

/-- The condition of line 444: `not answers_path.is_file() or older_than(answers_path,
env.cache_max_age)`; `true` selects the fetch path. -/
def cacheMissOrStale (mtime : Option Int) (now seconds : Int) : Bool :=
  match mtime with
  | none => true
  | some m => older_than now m seconds

/-- What one `do_search` invocation produced, with the effects made explicit:
which path was taken, whether `fzf` ran, the final answers, the quota the
warning check saw, and the rendered result records. -/
structure SearchOutcome where
  fetched : Bool
  fzfInvoked : Bool
  answers : List Answer
  quota : Int
  items : List Item
deriving DecidableEq

/-- Lines 459-497: the low-quota warning first (when `quota_remaining < 10`),
then one row per answer, then the `No answer found` row for an empty list. -/
def renderItems (quota : Int) (answers : List Answer) : List Item :=
  (if quota < 10 then [Item.warning quota] else []) ++
    answers.map Item.answerItem ++
    (if answers.isEmpty then [Item.noAnswer] else [])

/-- Lines 454-497, common to both paths: the secondary fuzzy narrowing
(`if additional_query:` — skipped for the empty string) followed by output
rendering. A title returned by `fzf` that is not a dictionary key would raise
`KeyError` in Python; that is the `Except.error SearchErr.keyError` case. -/
def searchFinish (w : SearchWorld) (aq : String) (fetched : Bool)
    (answers : List Answer) (quota : Int) : Except SearchErr SearchOutcome :=
  if aq.isEmpty then Except.ok ⟨fetched, false, answers, quota, renderItems quota answers⟩
  else
    let d := buildTitleDict answers
    let filteredTitles := w.fzf aq (d.map Prod.fst)
    match filteredTitles.mapM (dictGet d) with
    | some res => Except.ok ⟨fetched, true, res, quota, renderItems quota res⟩
    | none => Except.error SearchErr.keyError

/-- `do_search`: freshness check (line 444), then fetch (445-449, quota from
the response) or load (450-453, quota sentinel `9999999`), then narrowing and
rendering. `query` and `tags` only parametrize the remote request and the
cache path, both part of `w`. -/
def do_search (w : SearchWorld) (cache_max_age : Int) (query : String)
    (tags : List String) (additional_query : String) : Except SearchErr SearchOutcome :=
  if cacheMissOrStale w.mtime w.now cache_max_age then
    let pr := request_parse_search_api w.remoteItems w.remoteQuota
    searchFinish w additional_query true pr.1 pr.2
  else
    match w.cacheLoad with
    | Except.ok answers => searchFinish w additional_query false answers 9999999
    | Except.error _ => Except.error SearchErr.corruptCache

/-- The `@response_written` decorator: a normal return is printed as-is; any
exception is converted into a single error record. -/
def response_written (r : Except SearchErr SearchOutcome) : List Item :=
  match r with
  | Except.ok o => o.items
  | Except.error e => [Item.errorItem e]

/-! ## Cache writes as filesystem-operation traces (so.py lines 257-269) -/

/-- The filesystem operations a cache write can issue. -/
inductive FsOp where
  | openTrunc : String → FsOp
  | writeBytes : String → List Nat → FsOp
  | closeFile : String → FsOp
  | rename : String → String → FsOp
deriving DecidableEq

/-- `dump_answers_to_cache`: `gzip.open(path, 'wb')` truncates the destination
file in place, the compressed payload is written to it, and it is closed.
`payload` abstracts the bytes of `gzip(json.dumps(answers))`. -/
def dump_answers_to_cache (payload : List Nat) (path : String) : List FsOp :=
  [FsOp.openTrunc path, FsOp.writeBytes path payload, FsOp.closeFile path]

/-- `dump_sites_to_cache`: `open(path, 'w')` likewise truncates the destination
in place before writing. `payload` abstracts the bytes of `json.dumps(sites)`. -/
def dump_sites_to_cache (payload : List Nat) (path : String) : List FsOp :=
  [FsOp.openTrunc path, FsOp.writeBytes path payload, FsOp.closeFile path]

/-- Is the operation a rename? -/
def isRename : FsOp → Bool
  | FsOp.rename _ _ => true
  | _ => false

/-- Does the operation affect the file at `p`? (A rename affects its target.) -/
def opTouches (op : FsOp) (p : String) : Bool :=
  match op with
  | FsOp.openTrunc q => q == p
  | FsOp.writeBytes q _ => q == p
  | FsOp.closeFile q => q == p
  | FsOp.rename _ dst => dst == p

/-- The contents a reader of `p` observes after one operation. Rename
semantics are irrelevant here: the traces above issue none. -/
def stepContents (cur : Option (List Nat)) (p : String) : FsOp → Option (List Nat)
  | FsOp.openTrunc q => if q == p then some [] else cur
  | FsOp.writeBytes q data => if q == p then some data else cur
  | FsOp.closeFile _ => cur
  | FsOp.rename _ _ => cur

/-- The contents a reader of `p` observes after a trace prefix. -/
def contentsAfter (cur : Option (List Nat)) (p : String) : List FsOp → Option (List Nat)
  | [] => cur
  | op :: rest => contentsAfter (stepContents cur p op) p rest

/-- Modelled from the spec: "writes must use write-to-temporary-then-atomic-
rename". A trace updates `target` atomically in that sense when every
operation touching `target` is one final rename from a temporary path. -/
def writesViaTempRename (trace : List FsOp) (target : String) : Prop :=
  ∃ tmp, tmp ≠ target ∧ FsOp.rename tmp target ∈ trace ∧
    ∀ op ∈ trace, opTouches op target = true → op = FsOp.rename tmp target

/-! ## Statement-side helpers (used to state claims, not part of the embedding) -/

/-- The first-occurrence deduplication of a list of titles: the order in which
Python `dict` keys appear. -/
def firstOccur (l : List String) : List String :=
  l.foldl (fun acc t => if acc.any (fun x => x == t) then acc else acc ++ [t]) []

/-- The last element of `answers` bearing title `t`, if any. -/
def lastWithTitle (answers : List Answer) (t : String) : Option Answer :=
  (answers.filter (fun a => a.title == t)).getLast?

/-! ## Lemmas about the answered-first sort -/

theorem insertAnsweredDesc_answered (x : Answer) (l : List Answer)
    (hx : x.is_answered = true) : insertAnsweredDesc x l = x :: l := by
  cases l with
  | nil => rfl
  | cons b bs =>
    have h : answeredKey b ≤ answeredKey x := by
      simp only [answeredKey, hx, if_true]
      split <;> omega
    simp [insertAnsweredDesc, h]

theorem insertAnsweredDesc_unanswered (x : Answer) (hx : x.is_answered = false) :
    ∀ (A B : List Answer), (∀ a ∈ A, a.is_answered = true) →
      (∀ b ∈ B, b.is_answered = false) →
      insertAnsweredDesc x (A ++ B) = A ++ x :: B := by
  intro A
  induction A with
  | nil =>
    intro B _ hB
    cases B with
    | nil => rfl
    | cons b bs =>
      have hb : b.is_answered = false := hB b (List.mem_cons_self b bs)
      have h : answeredKey b ≤ answeredKey x := by simp [answeredKey, hx, hb]
      simp [insertAnsweredDesc, h]
  | cons a A ih =>
    intro B hA hB
    have ha : a.is_answered = true := hA a (List.mem_cons_self a A)
    have h : ¬ answeredKey a ≤ answeredKey x := by simp [answeredKey, hx, ha]
    simp only [List.cons_append, insertAnsweredDesc, if_neg h, List.append_eq]
    rw [ih B (fun a' ha' => hA a' (List.mem_cons_of_mem _ ha')) hB]

/-! ## Lemmas about the underscore join -/

theorem appendSepCancel : ∀ (a b r1 r2 : List Char), ('_' : Char) ∉ a → ('_' : Char) ∉ b →
    a ++ '_' :: r1 = b ++ '_' :: r2 → a = b ∧ r1 = r2 := by
  intro a
  induction a with
  | nil =>
    intro b r1 r2 _ hb h
    cases b with
    | nil => simpa using h
    | cons d b' =>
      exfalso
      have hd : d = '_' := by simpa using congrArg List.head? h.symm
      exact hb (hd ▸ List.mem_cons_self d b')
  | cons c a' ih =>
    intro b r1 r2 ha hb h
    cases b with
    | nil =>
      exfalso
      have hc : c = '_' := by simpa using congrArg List.head? h
      exact ha (hc ▸ List.mem_cons_self c a')
    | cons d b' =>
      have hcd : c = d := by simpa using congrArg List.head? h
      have htail : a' ++ '_' :: r1 = b' ++ '_' :: r2 := by
        have := congrArg List.tail h
        simpa using this
      have hrec := ih b' r1 r2 (fun hm => ha (List.mem_cons_of_mem _ hm))
        (fun hm => hb (List.mem_cons_of_mem _ hm)) htail
      exact ⟨by rw [hcd, hrec.1], hrec.2⟩

theorem pyJoin_cons_cons (sep : List Char) (x y : List Char) (rest : List (List Char)) :
    pyJoin sep (x :: y :: rest) = x ++ sep ++ pyJoin sep (y :: rest) := rfl

theorem pyJoinUnderscoreInj : ∀ (l1 l2 : List (List Char)), l1 ≠ [] → l2 ≠ [] →
    (∀ x ∈ l1, ('_' : Char) ∉ x) → (∀ x ∈ l2, ('_' : Char) ∉ x) →
    pyJoin ['_'] l1 = pyJoin ['_'] l2 → l1 = l2 := by
  intro l1
  induction l1 with
  | nil => intro l2 h1 _ _ _ _; exact absurd rfl h1
  | cons a as ih =>
    intro l2 _ h2 hf1 hf2 h
    cases l2 with
    | nil => exact absurd rfl h2
    | cons b bs =>
      cases as with
      | nil =>
        cases bs with
        | nil => simpa using h
        | cons b' bs' =>
          exfalso
          have hmem : ('_' : Char) ∈ a := by
            rw [show pyJoin ['_'] [a] = a from rfl] at h
            rw [h, pyJoin_cons_cons]
            exact List.mem_append_left _ (List.mem_append_right b (List.mem_cons_self '_' []))
          exact hf1 a (List.mem_cons_self a [a].tail) hmem
      | cons a' as' =>
        cases bs with
        | nil =>
          exfalso
          have hmem : ('_' : Char) ∈ b := by
            rw [show pyJoin ['_'] [b] = b from rfl] at h
            rw [← h, pyJoin_cons_cons]
            exact List.mem_append_left _ (List.mem_append_right a (List.mem_cons_self '_' []))
          exact hf2 b (List.mem_cons_self b []) hmem
        | cons b' bs' =>
          rw [pyJoin_cons_cons, pyJoin_cons_cons] at h
          have h' : a ++ '_' :: pyJoin ['_'] (a' :: as') = b ++ '_' :: pyJoin ['_'] (b' :: bs') := by
            simpa [List.append_assoc] using h
          have hab := appendSepCancel a b _ _
            (hf1 a (List.mem_cons_self a (a' :: as')))
            (hf2 b (List.mem_cons_self b (b' :: bs'))) h'
          have hrec := ih (b' :: bs') (by simp) (by simp)
            (fun x hx => hf1 x (List.mem_cons_of_mem _ hx))
            (fun x hx => hf2 x (List.mem_cons_of_mem _ hx)) hab.2
          rw [hab.1, hrec]

/-! ## Lemmas about the cache key -/

set_option maxRecDepth 1000000

/-- FIPS 180 test vector anchoring the SHA-1 embedding. -/
theorem sha1_test_vector_abc :
    String.mk (sha1HexChars (utf8Bytes "abc".data)) =
      "a9993e364706816aba3e25717850c26c9cd0d89d" := by decide

/-- FIPS 180 test vector anchoring the SHA-1 embedding (empty message). -/
theorem sha1_test_vector_empty :
    String.mk (sha1HexChars (utf8Bytes "".data)) =
      "da39a3ee5e6b4b0d3255bfef95601890afd80709" := by decide

theorem wordHexChars_length (w : Nat) : (wordHexChars w).length = 8 := by
  simp [wordHexChars]

theorem sha1HexChars_length (m : List Nat) : (sha1HexChars m).length = 40 := by
  unfold sha1HexChars sha1Digest
  simp [List.flatMap_cons, List.flatMap_nil, wordHexChars_length]

theorem nibbleChar_mem (n : Nat) : nibbleChar n ∈ hexDigits := by
  unfold nibbleChar
  rcases Nat.lt_or_ge n 16 with h | h
  · rw [List.getD_eq_getElem hexDigits '0' (by simpa [hexDigits] using h)]
    exact List.getElem_mem _
  · rw [List.getD_eq_default hexDigits '0' (by simpa [hexDigits] using h)]
    decide

theorem mem_sha1HexChars (c : Char) (m : List Nat) (h : c ∈ sha1HexChars m) :
    c ∈ hexDigits := by
  unfold sha1HexChars at h
  rcases List.mem_flatMap.mp h with ⟨w, _, hw⟩
  unfold wordHexChars at hw
  rcases List.mem_map.mp hw with ⟨i, _, hi⟩
  rw [← hi]
  exact nibbleChar_mem _

theorem cacheKey_length (s q : String) (t : List String) : (cacheKey s q t).length = 12 := by
  show ((sha1HexChars (utf8Bytes (answersCacheJoined s q t))).take 12).length = 12
  rw [List.length_take, sha1HexChars_length]
  decide

theorem cacheKey_chars (s q : String) (t : List String) (c : Char)
    (h : c ∈ (cacheKey s q t).data) : c ∈ hexDigits :=
  mem_sha1HexChars c _ (List.mem_of_mem_take h)

theorem answersCacheJoined_ne_of_tags_ne (s q : String) (t1 t2 : List String)
    (hfree : ∀ x ∈ t1, ('_' : Char) ∉ x.data) (hperm : t1.Perm t2) (hne : t1 ≠ t2) :
    answersCacheJoined s q t1 ≠ answersCacheJoined s q t2 := by
  intro h
  have hne1 : t1 ≠ [] := by
    intro h1
    subst h1
    exact hne (hperm.symm.eq_nil).symm
  have hne2 : t2 ≠ [] := by
    intro h2
    subst h2
    exact hne hperm.eq_nil
  unfold answersCacheJoined at h
  simp only [List.map_cons] at h
  rw [pyJoin_cons_cons, pyJoin_cons_cons] at h
  have h2 : pyJoin ['_'] (q.data :: t1.map String.data) =
      pyJoin ['_'] (q.data :: t2.map String.data) := by
    have := List.append_cancel_left (by simpa [List.append_assoc] using h :
      s.data ++ ('_' :: pyJoin ['_'] (q.data :: t1.map String.data)) =
        s.data ++ ('_' :: pyJoin ['_'] (q.data :: t2.map String.data)))
    simpa using this
  obtain ⟨x1, m1, hx1⟩ : ∃ x m, t1 = x :: m := by
    cases t1 with
    | nil => exact absurd rfl hne1
    | cons x m => exact ⟨x, m, rfl⟩
  obtain ⟨x2, m2, hx2⟩ : ∃ x m, t2 = x :: m := by
    cases t2 with
    | nil => exact absurd rfl hne2
    | cons x m => exact ⟨x, m, rfl⟩
  rw [hx1, hx2] at h2
  simp only [List.map_cons] at h2
  rw [pyJoin_cons_cons, pyJoin_cons_cons] at h2
  have h3 : pyJoin ['_'] (x1.data :: m1.map String.data) =
      pyJoin ['_'] (x2.data :: m2.map String.data) := by
    have := List.append_cancel_left (by simpa [List.append_assoc] using h2 :
      q.data ++ ('_' :: pyJoin ['_'] (x1.data :: m1.map String.data)) =
        q.data ++ ('_' :: pyJoin ['_'] (x2.data :: m2.map String.data)))
    simpa using this
  have hfree2 : ∀ x ∈ t2, ('_' : Char) ∉ x.data := fun x hx =>
    hfree x (hperm.symm.subset hx)
  have hinj := pyJoinUnderscoreInj (x1.data :: m1.map String.data)
    (x2.data :: m2.map String.data) (by simp) (by simp)
    (by
      intro y hy
      have : y ∈ (t1.map String.data) := by rw [hx1]; simpa using hy
      rcases List.mem_map.mp this with ⟨z, hz, hzy⟩
      exact hzy ▸ hfree z hz)
    (by
      intro y hy
      have : y ∈ (t2.map String.data) := by rw [hx2]; simpa using hy
      rcases List.mem_map.mp this with ⟨z, hz, hzy⟩
      exact hzy ▸ hfree2 z hz) h3
  apply hne
  rw [hx1, hx2]
  have : (t1.map String.data) = (t2.map String.data) := by
    rw [hx1, hx2]; simpa using hinj
  have hdata : Function.Injective String.data := by
    intro a b hab
    cases a; cases b
    exact congrArg String.mk (by simpa using hab)
  have := List.map_injective_iff.mpr hdata this
  rw [hx1, hx2] at this
  exact this

/-! ## Lemmas about the title dictionary -/

theorem dictGet_cons (p : String × Answer) (d : List (String × Answer)) (k : String) :
    dictGet (p :: d) k = if p.1 == k then some p.2 else dictGet d k := by
  unfold dictGet
  cases hp : (p.1 == k) <;> simp [List.find?_cons, hp]

theorem dictGet_dictInsert (d : List (String × Answer)) (a : Answer) (k : String) :
    dictGet (dictInsert d a) k = if a.title == k then some a else dictGet d k := by
  unfold dictInsert
  by_cases hc : d.any (fun p => p.1 == a.title)
  · rw [if_pos hc]
    by_cases hak : (a.title == k) = true
    · have hk : a.title = k := beq_iff_eq.mp hak
      have hpred : ((fun p : String × Answer => p.1 == k) ∘
          (fun p => if p.1 == a.title then (a.title, a) else p)) =
          (fun p : String × Answer => p.1 == a.title) := by
        funext p
        by_cases hp : (p.1 == a.title) = true
        · have hp' : p.1 = a.title := beq_iff_eq.mp hp
          simp [Function.comp, hp, hp', hk]
        · simp [Function.comp, hp, ← hk]
      rw [dictGet, List.find?_map, hpred]
      rcases hfind : List.find? (fun p : String × Answer => p.1 == a.title) d with _ | e
      · exfalso
        rcases List.any_eq_true.mp hc with ⟨x, hx, hpx⟩
        exact (List.find?_eq_none.mp hfind x hx) hpx
      · have he0 := List.find?_some hfind
        have he : (e.1 == a.title) = true := he0
        simp [hak, he, beq_iff_eq.mp he]
    · have hpred : ((fun p : String × Answer => p.1 == k) ∘
          (fun p => if p.1 == a.title then (a.title, a) else p)) =
          (fun p : String × Answer => p.1 == k) := by
        funext p
        by_cases hp : (p.1 == a.title) = true
        · simp [Function.comp, hp, beq_iff_eq.mp hp]
        · simp [Function.comp, hp]
      rw [dictGet, List.find?_map, hpred]
      rcases hfind : List.find? (fun p : String × Answer => p.1 == k) d with _ | e
      · simp [hak, dictGet, hfind]
      · have he0 := List.find?_some hfind
        have he : e.1 = k := beq_iff_eq.mp he0
        have hee : (e.1 == a.title) = false := by
          apply beq_eq_false_iff_ne.mpr
          intro hq
          exact hak (beq_iff_eq.mpr (by rw [← hq, he]))
        simp [hak, dictGet, hfind, hee, beq_eq_false_iff_ne.mp hee]
  · rw [if_neg hc]
    unfold dictGet
    rw [List.find?_append]
    by_cases hak : (a.title == k) = true
    · have hk : a.title = k := beq_iff_eq.mp hak
      have hnone : List.find? (fun p : String × Answer => p.1 == k) d = none := by
        rw [List.find?_eq_none]
        intro x hx hpx
        apply hc
        rw [List.any_eq_true]
        exact ⟨x, hx, by rw [hk]; exact hpx⟩
      simp [hnone, List.find?_singleton, hak]
    · simp [List.find?_singleton, hak, Option.or_none]

theorem getLast?_cons_or (a : Answer) (xs : List Answer) :
    (a :: xs).getLast? = xs.getLast?.or (some a) := by
  rw [List.getLast?_cons]
  cases xs.getLast? <;> rfl

theorem lastWithTitle_cons (a : Answer) (l : List Answer) (k : String) :
    lastWithTitle (a :: l) k =
      if a.title == k then (lastWithTitle l k).or (some a) else lastWithTitle l k := by
  unfold lastWithTitle
  rw [List.filter_cons]
  by_cases h : (a.title == k) = true
  · simp only [h, if_true]
    exact getLast?_cons_or a _
  · simp [h]

theorem dictGet_foldl (l : List Answer) : ∀ (d : List (String × Answer)) (k : String),
    dictGet (l.foldl dictInsert d) k = (lastWithTitle l k).or (dictGet d k) := by
  induction l with
  | nil => intro d k; simp [lastWithTitle, Option.none_or]
  | cons a l ih =>
    intro d k
    have h1 : (a :: l).foldl dictInsert d = l.foldl dictInsert (dictInsert d a) := rfl
    rw [h1, ih, dictGet_dictInsert, lastWithTitle_cons]
    by_cases hak : (a.title == k) = true
    · rw [if_pos hak, if_pos hak, Option.or_assoc]
      rfl
    · rw [if_neg hak, if_neg hak]

theorem dictGet_buildTitleDict (l : List Answer) (k : String) :
    dictGet (buildTitleDict l) k = lastWithTitle l k := by
  have h := dictGet_foldl l [] k
  simpa [buildTitleDict, dictGet, Option.or_none] using h

theorem any_map_fst (d : List (String × Answer)) (s : String) :
    (d.map Prod.fst).any (fun x => x == s) = d.any (fun p => p.1 == s) := by
  induction d with
  | nil => rfl
  | cons p d ih => simp [ih]

theorem map_fst_dictInsert (d : List (String × Answer)) (a : Answer) :
    (dictInsert d a).map Prod.fst =
      if (d.map Prod.fst).any (fun x => x == a.title) then d.map Prod.fst
      else d.map Prod.fst ++ [a.title] := by
  unfold dictInsert
  rw [any_map_fst]
  by_cases hc : d.any (fun p => p.1 == a.title)
  · rw [if_pos hc, if_pos hc, List.map_map]
    apply List.map_congr_left
    intro p _
    by_cases hp : (p.1 == a.title) = true
    · simp [Function.comp, hp, beq_iff_eq.mp hp]
    · simp [Function.comp, hp]
  · rw [if_neg hc, if_neg hc, List.map_append]
    rfl

theorem keys_foldl (l : List Answer) : ∀ (d : List (String × Answer)),
    (l.foldl dictInsert d).map Prod.fst =
      (l.map Answer.title).foldl
        (fun acc t => if acc.any (fun x => x == t) then acc else acc ++ [t])
        (d.map Prod.fst) := by
  induction l with
  | nil => intro _; rfl
  | cons a l ih =>
    intro d
    have h1 : (a :: l).foldl dictInsert d = l.foldl dictInsert (dictInsert d a) := rfl
    rw [h1, ih, map_fst_dictInsert]
    rfl

theorem keys_buildTitleDict (l : List Answer) :
    (buildTitleDict l).map Prod.fst = firstOccur (l.map Answer.title) := by
  simpa [buildTitleDict, firstOccur] using keys_foldl l []

theorem dictGet_isSome_of_mem_keys (d : List (String × Answer)) (t : String)
    (h : t ∈ d.map Prod.fst) : (dictGet d t).isSome = true := by
  induction d with
  | nil => simp at h
  | cons p d ih =>
    rw [dictGet_cons]
    by_cases hp : (p.1 == t) = true
    · simp [hp]
    · rw [if_neg hp]
      simp only [List.map_cons, List.mem_cons] at h
      rcases h with h | h
      · exact absurd (beq_iff_eq.mpr h.symm) hp
      · exact ih h

theorem mapM_eq_filterMap (f : String → Option Answer) :
    ∀ (ts : List String), (∀ t ∈ ts, (f t).isSome = true) →
      ts.mapM f = some (ts.filterMap f) := by
  intro ts
  induction ts with
  | nil => intro _; rfl
  | cons t ts ih =>
    intro h
    rcases Option.isSome_iff_exists.mp (h t (List.mem_cons_self t ts)) with ⟨b, hb⟩
    rw [List.mapM_cons, hb, ih (fun x hx => h x (List.mem_cons_of_mem _ hx))]
    simp [List.filterMap_cons, hb]

/-! ## Lemmas about `do_search` and the rendered items -/

theorem searchFinish_empty (w : SearchWorld) (f : Bool) (ans : List Answer) (q : Int) :
    searchFinish w "" f ans q = Except.ok ⟨f, false, ans, q, renderItems q ans⟩ := rfl

theorem do_search_fetch (w : SearchWorld) (cma : Int) (q : String) (tags : List String)
    (aq : String) (h : cacheMissOrStale w.mtime w.now cma = true) :
    do_search w cma q tags aq =
      searchFinish w aq true (pySortAnswered w.remoteItems) w.remoteQuota := by
  unfold do_search
  rw [if_pos h]
  rfl

theorem do_search_load (w : SearchWorld) (cma : Int) (q : String) (tags : List String)
    (aq : String) (h : cacheMissOrStale w.mtime w.now cma = false) :
    do_search w cma q tags aq =
      match w.cacheLoad with
      | Except.ok answers => searchFinish w aq false answers 9999999
      | Except.error _ => Except.error SearchErr.corruptCache := by
  unfold do_search
  rw [h]
  exact if_neg (by decide)

theorem searchFinish_ok_shape (w : SearchWorld) (aq : String) (f : Bool)
    (ans : List Answer) (q : Int) (o : SearchOutcome)
    (h : searchFinish w aq f ans q = Except.ok o) :
    o.fetched = f ∧ o.quota = q ∧ o.items = renderItems q o.answers := by
  simp only [searchFinish] at h
  by_cases he : aq.isEmpty = true
  · rw [if_pos he] at h
    rw [Except.ok.injEq] at h
    subst h
    exact ⟨rfl, rfl, rfl⟩
  · rw [if_neg he] at h
    split at h
    · rw [Except.ok.injEq] at h
      subst h
      exact ⟨rfl, rfl, rfl⟩
    · exact Except.noConfusion h

theorem do_search_ok_cases (w : SearchWorld) (cma : Int) (q : String) (tags : List String)
    (aq : String) (o : SearchOutcome) (h : do_search w cma q tags aq = Except.ok o) :
    (cacheMissOrStale w.mtime w.now cma = true ∧
      searchFinish w aq true (pySortAnswered w.remoteItems) w.remoteQuota = Except.ok o) ∨
    (cacheMissOrStale w.mtime w.now cma = false ∧
      ∃ l, w.cacheLoad = Except.ok l ∧ searchFinish w aq false l 9999999 = Except.ok o) := by
  by_cases hc : cacheMissOrStale w.mtime w.now cma = true
  · left
    refine ⟨hc, ?_⟩
    rw [← do_search_fetch w cma q tags aq hc]
    exact h
  · have hc' : cacheMissOrStale w.mtime w.now cma = false := Bool.eq_false_iff.mpr hc
    right
    refine ⟨hc', ?_⟩
    have h2 := h
    rw [do_search_load w cma q tags aq hc'] at h2
    cases hl : w.cacheLoad with
    | ok l =>
      rw [hl] at h2
      exact ⟨l, rfl, h2⟩
    | error e =>
      rw [hl] at h2
      exact Except.noConfusion h2

theorem renderItems_head_of_lt (q : Int) (ans : List Answer) (h : q < 10) :
    (renderItems q ans).head? = some (Item.warning q) := by
  simp [renderItems, h]

theorem renderItems_no_warning (q : Int) (ans : List Answer) (h : ¬ q < 10) (z : Int) :
    Item.warning z ∉ renderItems q ans := by
  intro hmem
  unfold renderItems at hmem
  rw [if_neg h] at hmem
  simp only [List.nil_append, List.mem_append] at hmem
  rcases hmem with hm | hm
  · rcases List.mem_map.mp hm with ⟨a, _, ha⟩
    exact Item.noConfusion ha
  · by_cases he : ans.isEmpty = true
    · rw [if_pos he] at hm
      simp at hm
    · rw [if_neg he] at hm
      simp at hm

theorem renderItems_head_of_not_lt (q : Int) (ans : List Answer) (h : ¬ q < 10) (z : Int) :
    (renderItems q ans).head? ≠ some (Item.warning z) := by
  intro hh
  have hmem : Item.warning z ∈ renderItems q ans := by
    cases hr : renderItems q ans with
    | nil => rw [hr] at hh; simp at hh
    | cons x xs =>
      rw [hr] at hh
      simp at hh
      rw [hh]
      exact List.mem_cons_self _ _
  exact renderItems_no_warning q ans h z hmem

/-! ## Lemmas about the query parser -/

theorem containsSS_append_ss (b a : List Char) :
    containsSS (b ++ '/' :: '/' :: a) = true := by
  induction b with
  | nil => simp [containsSS]
  | cons c b ih => simp [containsSS, ih]

theorem containsSS_mem (l : List Char) (h : containsSS l = true) : ('/' : Char) ∈ l := by
  induction l with
  | nil => simp [containsSS] at h
  | cons c rest ih =>
    simp only [containsSS] at h
    rcases (Bool.or_eq_true _ _).mp h with h1 | h2
    · have hc : c = '/' := beq_iff_eq.mp ((Bool.and_eq_true _ _).mp h1).1
      rw [hc]
      exact List.mem_cons_self _ _
    · exact List.mem_cons_of_mem _ (ih h2)

theorem mem_pyStrip (c : Char) (l : List Char) (h : c ∈ pyStrip l) : c ∈ l := by
  unfold pyStrip at h
  rw [List.mem_reverse] at h
  have h2 : c ∈ (l.dropWhile pyIsSpace).reverse :=
    List.Sublist.mem h (List.dropWhile_sublist pyIsSpace)
  rw [List.mem_reverse] at h2
  exact List.Sublist.mem h2 (List.dropWhile_sublist pyIsSpace)

theorem getLast?_ne_of_not_mem (l : List Char) (h : ('/' : Char) ∉ l) :
    l.getLast? ≠ some '/' := by
  intro hl
  rcases List.getLast?_eq_some_iff.mp hl with ⟨ys, hys⟩
  exact h (hys ▸ List.mem_append_right ys (List.mem_cons_self _ _))

theorem partitionSS_spec : ∀ (b a : List Char), containsSS b = false →
    b.getLast? ≠ some '/' → partitionSS (b ++ '/' :: '/' :: a) = (b, a) := by
  intro b
  induction b with
  | nil =>
    intro a _ _
    simp [partitionSS]
  | cons c b ih =>
    intro a hss hlast
    have hnb : (c == '/' && b.head? == some '/') = false ∧ containsSS b = false := by
      simpa only [containsSS, Bool.or_eq_false_iff] using hss
    have hcond : (c == '/' && (b ++ '/' :: '/' :: a).head? == some '/') = false := by
      cases b with
      | nil =>
        have hc : c ≠ '/' := by
          intro hc
          apply hlast
          rw [hc]
          rfl
        simp [hc]
      | cons d b' =>
        simpa using hnb.1
    have hlast' : b.getLast? ≠ some '/' := by
      cases b with
      | nil => simp
      | cons d b' =>
        rw [List.getLast?_cons_cons] at hlast
        exact hlast
    rw [List.cons_append]
    simp only [partitionSS, hcond]
    rw [if_neg (by decide)]
    rw [ih a hnb.2 hlast']

/-! ## Concrete instances used by witnesses and counterexamples -/

/-- An `fzf` collaborator that returns every candidate (e.g. a query matching all). -/
def idFzf : String → List String → List String := fun _ c => c

/-- Two answers sharing one title. -/
def A1 : Answer := ⟨"t", "l1", [], true, 0⟩

/-- Two answers sharing one title (second, with a different link). -/
def A2 : Answer := ⟨"t", "l2", [], false, 0⟩

/-- A world with no cache file and a low remote quota. -/
def Wfetch : SearchWorld := ⟨100, none, Except.ok [], [], 5, idFzf⟩

/-- A world whose cache file is exactly `cache_max_age = 60` seconds old. -/
def Wstale : SearchWorld := ⟨100, some 40, Except.ok [], [], 50, idFzf⟩

/-- A world with a fresh cache holding two answers with a duplicate title. -/
def Wfresh : SearchWorld := ⟨100, some 99, Except.ok [A1, A2], [], 0, idFzf⟩

/-- A world with a fresh but corrupt cache. -/
def Wcorrupt : SearchWorld := ⟨100, some 99, Except.error (), [], 0, idFzf⟩

/-! ## Claims -/

/-- C1, counterexample to "permuting the tags list changes the key": the tag
lists `["a", "a_a"]` and `["a_a", "a"]` are distinct permutations of each
other, yet both joins are `"s_q_a_a_a"`, so the cache keys coincide. -/
theorem claim_C1_counterexample :
    (["a", "a_a"] : List String) ≠ ["a_a", "a"] ∧
    (["a", "a_a"] : List String).Perm ["a_a", "a"] ∧
    cacheKey "s" "q" ["a", "a_a"] = cacheKey "s" "q" ["a_a", "a"] := by
  refine ⟨by decide, by decide, ?_⟩
  have hj : answersCacheJoined "s" "q" ["a", "a_a"] = answersCacheJoined "s" "q" ["a_a", "a"] := by
    decide
  unfold cacheKey
  rw [hj]

/-- C1 (amended): `get_answers_cache`'s key derivation is deterministic and
always yields 12 lowercase-hexadecimal characters (file-name safe). Permuting
the tags changes the digest input — hence, barring SHA-1-prefix collisions,
the key — whenever no tag contains the separator `'_'`; with `'_'` inside a
tag, distinct permutations can produce the identical key. The concrete pair
`["a", "b"]` / `["b", "a"]` does yield different keys. -/
theorem claim_C1_theorem :
    (∀ (s1 q1 s2 q2 : String) (t1 t2 : List String), s1 = s2 → q1 = q2 → t1 = t2 →
      cacheKey s1 q1 t1 = cacheKey s2 q2 t2) ∧
    (∀ (s q : String) (t : List String), (cacheKey s q t).length = 12) ∧
    (∀ (s q : String) (t : List String), ∀ c ∈ (cacheKey s q t).data, c ∈ hexDigits) ∧
    (∀ (s q : String) (t1 t2 : List String), (∀ x ∈ t1, ('_' : Char) ∉ x.data) →
      t1.Perm t2 → t1 ≠ t2 →
      answersCacheJoined s q t1 ≠ answersCacheJoined s q t2) ∧
    cacheKey "s" "q" ["a", "b"] ≠ cacheKey "s" "q" ["b", "a"] := by
  refine ⟨?_, cacheKey_length, cacheKey_chars, answersCacheJoined_ne_of_tags_ne, by decide⟩
  intro s1 q1 s2 q2 t1 t2 h1 h2 h3
  rw [h1, h2, h3]

/-- C1 witness: the amended theorem applied to concrete inputs. -/
theorem claim_C1_witness :
    answersCacheJoined "s" "q" ["a", "b"] ≠ answersCacheJoined "s" "q" ["b", "a"] ∧
    (cacheKey "s" "q" ["a", "b"]).length = 12 :=
  ⟨claim_C1_theorem.2.2.2.1 "s" "q" ["a", "b"] ["b", "a"] (by decide) (by decide) (by decide),
    claim_C1_theorem.2.1 "s" "q" ["a", "b"]⟩

/-- C2: the freshness check of `do_search`. A missing answers cache always
takes the fetch path; an existing file whose age (`now - mtime`) is `≥`
`cache_max_age` is stale and takes the fetch path; an age strictly below
`cache_max_age` takes the load path. -/
theorem claim_C2_theorem (w : SearchWorld) (cma : Int) (q : String) (tags : List String)
    (aq : String) :
    (w.mtime = none →
      do_search w cma q tags aq =
        searchFinish w aq true (pySortAnswered w.remoteItems) w.remoteQuota) ∧
    (∀ m : Int, w.mtime = some m → cma ≤ w.now - m →
      do_search w cma q tags aq =
        searchFinish w aq true (pySortAnswered w.remoteItems) w.remoteQuota) ∧
    (∀ m : Int, w.mtime = some m → w.now - m < cma →
      do_search w cma q tags aq =
        match w.cacheLoad with
        | Except.ok answers => searchFinish w aq false answers 9999999
        | Except.error _ => Except.error SearchErr.corruptCache) := by
  refine ⟨?_, ?_, ?_⟩
  · intro hm
    apply do_search_fetch
    simp [cacheMissOrStale, hm]
  · intro m hm hage
    apply do_search_fetch
    simp only [cacheMissOrStale, hm, older_than]
    exact decide_eq_true hage
  · intro m hm hage
    apply do_search_load
    simp only [cacheMissOrStale, hm, older_than]
    simp only [decide_eq_false_iff_not]
    omega

/-- C2 witness: a file aged exactly `cache_max_age` (60 = 60) is stale. -/
theorem claim_C2_witness :
    do_search Wstale 60 "" [] "" =
      searchFinish Wstale "" true (pySortAnswered Wstale.remoteItems) Wstale.remoteQuota :=
  (claim_C2_theorem Wstale 60 "" [] "").2.1 40 rfl (by decide)

/-- C3, counterexample: with a fresh but corrupt cache, `do_search` raises
instead of refetching, and the `response_written` wrapper surfaces the failure
as the invocation's result (an error record). -/
theorem claim_C3_counterexample :
    do_search Wcorrupt 100 "q" [] "" = Except.error SearchErr.corruptCache ∧
    response_written (do_search Wcorrupt 100 "q" [] "") = [Item.errorItem SearchErr.corruptCache] := by
  constructor
  · rfl
  · rfl

/-- C3 (amended): when the load path is selected and `load_answers_from_cache`
fails (CorruptCache), `do_search` does not refetch: the exception propagates
out of the pipeline and the top-level wrapper converts it into a single error
record, which becomes the invocation's result. The host process does not
crash, but the fault is surfaced, not absorbed into a fetch. -/
theorem claim_C3_theorem (w : SearchWorld) (cma : Int) (q : String) (tags : List String)
    (aq : String) (m : Int) (hm : w.mtime = some m) (hage : w.now - m < cma)
    (hload : w.cacheLoad = Except.error ()) :
    do_search w cma q tags aq = Except.error SearchErr.corruptCache ∧
    response_written (do_search w cma q tags aq) = [Item.errorItem SearchErr.corruptCache] := by
  have hc : cacheMissOrStale w.mtime w.now cma = false := by
    simp only [cacheMissOrStale, hm, older_than]
    simp only [decide_eq_false_iff_not]
    omega
  have h1 : do_search w cma q tags aq = Except.error SearchErr.corruptCache := by
    rw [do_search_load w cma q tags aq hc, hload]
  exact ⟨h1, by rw [h1]; rfl⟩

/-- C3 witness: the amended theorem applied to a concrete corrupt-cache world. -/
theorem claim_C3_witness :
    do_search Wcorrupt 100 "x" [] "y" = Except.error SearchErr.corruptCache ∧
    response_written (do_search Wcorrupt 100 "x" [] "y") = [Item.errorItem SearchErr.corruptCache] :=
  claim_C3_theorem Wcorrupt 100 "x" [] "y" 99 rfl (by decide) rfl

/-- C4, counterexample: the secondary filter is *not* trimmed — the example
input yields `" extra text"` (leading space), not `"extra text"` as claimed. -/
theorem claim_C4_counterexample :
    (parse_search_query "foo #bar #baz // extra text").2.2 = " extra text" ∧
    (parse_search_query "foo #bar #baz // extra text").2.2 ≠ "extra text" := by
  exact ⟨by decide, by decide⟩

/-- C4 (amended): `parse_search_query` strips the input, splits at the first
`//` (everything after it is the secondary filter, kept verbatim including
surrounding whitespace), tokenizes the part before on whitespace, turns
`#`-prefixed tokens into tags (prefix stripped) and joins the rest with single
spaces in order; a mere trailing `/` is dropped with empty secondary filter;
an input with no slash has an empty secondary filter. So the first example
yields secondary `" extra text"` (with its leading space), and the other
examples are as claimed. -/
theorem claim_C4_theorem :
    (parse_search_query "foo #bar #baz // extra text" = ("foo", ["bar", "baz"], " extra text")) ∧
    (parse_search_query "foo bar/" = ("foo bar", [], "")) ∧
    (∀ s : String, ('/' : Char) ∉ s.data → (parse_search_query s).2.2 = "") ∧
    (∀ b a : List Char, pyStrip (b ++ '/' :: '/' :: a) = b ++ '/' :: '/' :: a →
      containsSS b = false → b.getLast? ≠ some '/' →
      parse_search_query (String.mk (b ++ '/' :: '/' :: a)) =
        (String.mk (pyJoin [' '] ((pySplitWS b).filter (fun w => !(w.head? == some '#')))),
         ((pySplitWS b).filter (fun w => w.head? == some '#')).map (fun w => String.mk w.tail),
         String.mk a)) := by
  refine ⟨by decide, by decide, ?_, ?_⟩
  · intro s hs
    have ht : ('/' : Char) ∉ pyStrip s.data := fun hm => hs (mem_pyStrip _ _ hm)
    have h1 : containsSS (pyStrip s.data) = false := by
      cases hq : containsSS (pyStrip s.data)
      · rfl
      · exact absurd (containsSS_mem _ hq) ht
    have h2 : ((pyStrip s.data).getLast? == some '/') = false := by
      apply beq_eq_false_iff_ne.mpr
      exact getLast?_ne_of_not_mem _ ht
    simp [parse_search_query, h1, h2]
  · intro b a hstrip hss hlast
    have hd : (String.mk (b ++ '/' :: '/' :: a)).data = b ++ '/' :: '/' :: a := rfl
    simp only [parse_search_query, hd, hstrip, containsSS_append_ss, if_true,
      partitionSS_spec b a hss hlast]

/-- C4 witness: the amended theorem applied at a slash-free input. -/
theorem claim_C4_witness : (parse_search_query "abc").2.2 = "" :=
  claim_C4_theorem.2.2.1 "abc" (by decide)

/-- C5, counterexample to "the first Answer wins on duplicate titles": with two
answers sharing title `"t"`, the dictionary keeps the *last* one (`A2`), so the
narrowing returns `[A2]`, not `[A1]`. -/
theorem claim_C5_counterexample :
    do_search Wfresh 60 "q" [] "x" =
      Except.ok ⟨false, true, [A2], 9999999, [Item.answerItem A2]⟩ ∧
    A1 ≠ A2 := by
  exact ⟨rfl, by decide⟩

/-- C5 (amended): when the secondary filter is non-empty, the candidate titles
are offered to `fzf` in first-occurrence order, but on duplicate titles the
*last* Answer wins (Python dict assignment overwrites); the kept answers are
exactly those whose titles appear in the filter's output, in the filter's
returned order, every absent candidate being dropped. -/
theorem claim_C5_theorem (w : SearchWorld) (aq : String) (f : Bool)
    (answers : List Answer) (q : Int) (haq : aq.isEmpty = false)
    (hsub : ∀ t ∈ w.fzf aq ((buildTitleDict answers).map Prod.fst),
      t ∈ (buildTitleDict answers).map Prod.fst) :
    (buildTitleDict answers).map Prod.fst = firstOccur (answers.map Answer.title) ∧
    searchFinish w aq f answers q =
      Except.ok ⟨f, true,
        (w.fzf aq ((buildTitleDict answers).map Prod.fst)).filterMap (lastWithTitle answers),
        q,
        renderItems q
          ((w.fzf aq ((buildTitleDict answers).map Prod.fst)).filterMap (lastWithTitle answers))⟩ := by
  refine ⟨keys_buildTitleDict answers, ?_⟩
  have hisSome : ∀ t ∈ w.fzf aq ((buildTitleDict answers).map Prod.fst),
      (dictGet (buildTitleDict answers) t).isSome = true :=
    fun t ht => dictGet_isSome_of_mem_keys _ t (hsub t ht)
  have hmapM := mapM_eq_filterMap (dictGet (buildTitleDict answers)) _ hisSome
  have hfun : dictGet (buildTitleDict answers) = lastWithTitle answers :=
    funext (dictGet_buildTitleDict answers)
  simp only [searchFinish]
  rw [if_neg (by simp [haq])]
  rw [hmapM, hfun]

/-- C5 witness: the amended theorem applied to the duplicate-title world. -/
theorem claim_C5_witness :
    (buildTitleDict [A1, A2]).map Prod.fst = firstOccur ([A1, A2].map Answer.title) ∧
    searchFinish Wfresh "x" false [A1, A2] 9999999 =
      Except.ok ⟨false, true,
        (Wfresh.fzf "x" ((buildTitleDict [A1, A2]).map Prod.fst)).filterMap (lastWithTitle [A1, A2]),
        9999999,
        renderItems 9999999
          ((Wfresh.fzf "x" ((buildTitleDict [A1, A2]).map Prod.fst)).filterMap
            (lastWithTitle [A1, A2]))⟩ :=
  claim_C5_theorem Wfresh "x" false [A1, A2] 9999999 (by decide) (by decide)

/-- C6: the answered-first sort of `request_parse_search_api` is a stable
descending sort on the boolean key: the result is exactly the answered
entries in input order followed by the unanswered entries in input order. -/
theorem claim_C6_theorem (raw : List Answer) (quota : Int) :
    (request_parse_search_api raw quota).1 =
      raw.filter (fun a => a.is_answered) ++ raw.filter (fun a => !a.is_answered) := by
  show pySortAnswered raw = _
  induction raw with
  | nil => rfl
  | cons x l ih =>
    have hs : pySortAnswered (x :: l) = insertAnsweredDesc x (pySortAnswered l) := rfl
    rw [hs, ih]
    cases hx : x.is_answered with
    | true =>
      rw [insertAnsweredDesc_answered x _ hx]
      simp [List.filter_cons, hx]
    | false =>
      rw [insertAnsweredDesc_unanswered x hx _ _
        (fun a ha => by simpa using List.of_mem_filter ha)
        (fun b hb => by simpa using List.of_mem_filter hb)]
      simp [List.filter_cons, hx]

/-- C7: the low-quota warning record heads the rendered output exactly when
the fetch path was taken and the remote `quota_remaining` is below 10; after a
load from cache (quota sentinel `9999999`) no warning item ever appears. -/
theorem claim_C7_theorem (w : SearchWorld) (cma : Int) (q : String) (tags : List String)
    (aq : String) (o : SearchOutcome) (h : do_search w cma q tags aq = Except.ok o) :
    ((o.items.head? = some (Item.warning o.quota)) ↔ (o.fetched = true ∧ o.quota < 10)) ∧
    (o.fetched = true → o.quota = w.remoteQuota) ∧
    (o.fetched = false → ∀ z : Int, Item.warning z ∉ o.items) := by
  rcases do_search_ok_cases w cma q tags aq o h with ⟨hc, hok⟩ | ⟨hc, l, hl, hok⟩
  · have hshape := searchFinish_ok_shape _ _ _ _ _ _ hok
    have hfetch : o.fetched = true := hshape.1
    have hquota : o.quota = w.remoteQuota := hshape.2.1
    have hitems : o.items = renderItems o.quota o.answers := by
      rw [hshape.2.2, ← hquota]
    refine ⟨?_, fun _ => hquota, fun hff => absurd (hfetch ▸ hff) (by simp)⟩
    by_cases hlt : o.quota < 10
    · constructor
      · intro _
        exact ⟨hfetch, hlt⟩
      · intro _
        rw [hitems]
        exact renderItems_head_of_lt o.quota o.answers hlt
    · constructor
      · intro hh
        rw [hitems] at hh
        exact absurd hh (renderItems_head_of_not_lt o.quota o.answers hlt o.quota)
      · intro hcontr
        exact absurd hcontr.2 hlt
  · have hshape := searchFinish_ok_shape _ _ _ _ _ _ hok
    have hfetch : o.fetched = false := hshape.1
    have hquota : o.quota = 9999999 := hshape.2.1
    have hitems : o.items = renderItems o.quota o.answers := by
      rw [hshape.2.2, ← hquota]
    have hlt : ¬ o.quota < 10 := by
      rw [hquota]
      decide
    refine ⟨?_, fun hft => absurd (hfetch ▸ hft) (by simp), ?_⟩
    · constructor
      · intro hh
        rw [hitems] at hh
        exact absurd hh (renderItems_head_of_not_lt o.quota o.answers hlt o.quota)
      · intro hcontr
        exact absurd (hfetch ▸ hcontr.1) (by simp)
    · intro _ z
      rw [hitems]
      exact renderItems_no_warning o.quota o.answers hlt z

/-- The outcome of `do_search` on `Wfetch` (no cache file, remote quota 5). -/
def O7 : SearchOutcome := ⟨true, false, [], 5, renderItems 5 []⟩

/-- C7 witness: on the fetch path with quota 5, the warning heads the items. -/
theorem claim_C7_witness :
    ((O7.items.head? = some (Item.warning O7.quota)) ↔ (O7.fetched = true ∧ O7.quota < 10)) ∧
    (O7.fetched = true → O7.quota = Wfetch.remoteQuota) ∧
    (O7.fetched = false → ∀ z : Int, Item.warning z ∉ O7.items) :=
  claim_C7_theorem Wfetch 60 "" [] "" O7 rfl

/-- C9, counterexample: `dump_answers_to_cache` issues no rename at all — its
first operation truncates the destination in place, so after that step a
reader of the path observes empty contents, which is neither the old payload
`[7]` nor the new payload `[1, 2, 3]`. -/
theorem claim_C9_counterexample :
    ¬ writesViaTempRename (dump_answers_to_cache [1, 2, 3] "k.json.gz") "k.json.gz" ∧
    contentsAfter (some [7]) "k.json.gz"
      ((dump_answers_to_cache [1, 2, 3] "k.json.gz").take 1) = some [] ∧
    (some ([] : List Nat) ≠ some [7]) ∧ (some ([] : List Nat) ≠ some [1, 2, 3]) := by
  refine ⟨?_, by decide, by decide, by decide⟩
  rintro ⟨tmp, hne, hmem, hall⟩
  have h := hall (FsOp.openTrunc "k.json.gz") (by simp [dump_answers_to_cache])
    (by simp [opTouches])
  exact FsOp.noConfusion h

/-- C9 (amended): `dump_answers_to_cache` and `dump_sites_to_cache` write in
place: every operation targets the destination path, none is a rename, the
destination is truncated first (a concurrent reader can observe the empty
intermediate state), and only after the write do the new contents appear. -/
theorem claim_C9_theorem (payload : List Nat) (path : String) (old : Option (List Nat)) :
    (∀ op ∈ dump_answers_to_cache payload path, isRename op = false ∧ opTouches op path = true) ∧
    (∀ op ∈ dump_sites_to_cache payload path, isRename op = false ∧ opTouches op path = true) ∧
    contentsAfter old path ((dump_answers_to_cache payload path).take 1) = some [] ∧
    contentsAfter old path (dump_answers_to_cache payload path) = some payload ∧
    contentsAfter old path ((dump_sites_to_cache payload path).take 1) = some [] ∧
    contentsAfter old path (dump_sites_to_cache payload path) = some payload := by
  refine ⟨?_, ?_, ?_, ?_, ?_, ?_⟩
  · intro op hop
    simp only [dump_answers_to_cache, List.mem_cons, List.not_mem_nil, or_false] at hop
    rcases hop with rfl | rfl | rfl <;> simp [isRename, opTouches]
  · intro op hop
    simp only [dump_sites_to_cache, List.mem_cons, List.not_mem_nil, or_false] at hop
    rcases hop with rfl | rfl | rfl <;> simp [isRename, opTouches]
  · simp [dump_answers_to_cache, contentsAfter, stepContents]
  · simp [dump_answers_to_cache, contentsAfter, stepContents]
  · simp [dump_sites_to_cache, contentsAfter, stepContents]
  · simp [dump_sites_to_cache, contentsAfter, stepContents]

/-- C9 witness: the amended theorem applied to a concrete write. -/
theorem claim_C9_witness :
    contentsAfter (some [9]) "p" ((dump_answers_to_cache [1] "p").take 1) = some [] :=
  (claim_C9_theorem [1] "p" (some [9])).2.2.1

/-- C10: with an empty secondary filter the narrowing stage of `do_search` is
the identity — `fzf` is never invoked and the fetched or loaded answers pass
through to rendering unchanged in content and order. -/
theorem claim_C10_theorem (w : SearchWorld) (cma : Int) (q : String) (tags : List String)
    (o : SearchOutcome) (h : do_search w cma q tags "" = Except.ok o) :
    o.fzfInvoked = false ∧
    (o.fetched = true → o.answers = pySortAnswered w.remoteItems ∧ o.quota = w.remoteQuota) ∧
    (o.fetched = false → w.cacheLoad = Except.ok o.answers ∧ o.quota = 9999999) ∧
    o.items = renderItems o.quota o.answers := by
  rcases do_search_ok_cases w cma q tags "" o h with ⟨hc, hok⟩ | ⟨hc, l, hl, hok⟩
  · rw [searchFinish_empty, Except.ok.injEq] at hok
    subst hok
    exact ⟨rfl, fun _ => ⟨rfl, rfl⟩, fun hff => absurd hff (by simp), rfl⟩
  · rw [searchFinish_empty, Except.ok.injEq] at hok
    subst hok
    exact ⟨rfl, fun hft => absurd hft (by simp), fun _ => ⟨hl, rfl⟩, rfl⟩

/-- C10 witness: the theorem applied to the no-cache-file world. -/
theorem claim_C10_witness :
    O7.fzfInvoked = false ∧
    (O7.fetched = true → O7.answers = pySortAnswered Wfetch.remoteItems ∧
      O7.quota = Wfetch.remoteQuota) ∧
    (O7.fetched = false → Wfetch.cacheLoad = Except.ok O7.answers ∧ O7.quota = 9999999) ∧
    O7.items = renderItems O7.quota O7.answers :=
  claim_C10_theorem Wfetch 60 "" [] O7 rfl

/-- C8, counterexample: the separator `'_'` *can* occur in inputs, so distinct
triples can feed the identical concatenation to the digest: `("s", "q",
["a", "b"])` and `("s", "q", ["a_b"])` both join to `"s_q_a_b"` and receive
the same cache key — a collision that is not a digest collision. -/
theorem claim_C8_counterexample :
    (("s", "q", ["a", "b"]) : String × String × List String) ≠ ("s", "q", ["a_b"]) ∧
    answersCacheJoined "s" "q" ["a", "b"] = answersCacheJoined "s" "q" ["a_b"] ∧
    cacheKey "s" "q" ["a", "b"] = cacheKey "s" "q" ["a_b"] := by
  refine ⟨by decide, by decide, ?_⟩
  have hj : answersCacheJoined "s" "q" ["a", "b"] = answersCacheJoined "s" "q" ["a_b"] := by
    decide
  unfold cacheKey
  rw [hj]

/-- C8 (amended): the cache key is a function of the `'_'`-joined
concatenation alone, and that concatenation separates triples only when the
separator does not occur in the inputs: for `'_'`-free `site_id`, `query` and
tags, distinct triples always produce distinct digest inputs (so keys collide
only by accepted digest-prefix collision); with `'_'` inside an input,
distinct triples can coincide already before the digest. -/
theorem claim_C8_theorem :
    (∀ (s q s' q' : String) (t t' : List String),
      ('_' : Char) ∉ s.data → ('_' : Char) ∉ q.data → (∀ x ∈ t, ('_' : Char) ∉ x.data) →
      ('_' : Char) ∉ s'.data → ('_' : Char) ∉ q'.data → (∀ x ∈ t', ('_' : Char) ∉ x.data) →
      answersCacheJoined s q t = answersCacheJoined s' q' t' →
      s = s' ∧ q = q' ∧ t = t') ∧
    (∀ (s q s' q' : String) (t t' : List String),
      answersCacheJoined s q t = answersCacheJoined s' q' t' →
      cacheKey s q t = cacheKey s' q' t') := by
  constructor
  · intro s q s' q' t t' hs hq ht hs' hq' ht' h
    have hinj := pyJoinUnderscoreInj ((s :: q :: t).map String.data)
      ((s' :: q' :: t').map String.data) (by simp) (by simp)
      (by
        intro y hy
        simp only [List.map_cons, List.mem_cons] at hy
        rcases hy with rfl | rfl | hy
        · exact hs
        · exact hq
        · rcases List.mem_map.mp hy with ⟨z, hz, rfl⟩
          exact ht z hz)
      (by
        intro y hy
        simp only [List.map_cons, List.mem_cons] at hy
        rcases hy with rfl | rfl | hy
        · exact hs'
        · exact hq'
        · rcases List.mem_map.mp hy with ⟨z, hz, rfl⟩
          exact ht' z hz) h
    have hdata : Function.Injective String.data := by
      intro a b hab
      cases a
      cases b
      exact congrArg String.mk (by simpa using hab)
    have hlists := List.map_injective_iff.mpr hdata hinj
    injection hlists with h1 hrest
    injection hrest with h2 h3
    exact ⟨h1, h2, h3⟩
  · intro s q s' q' t t' h
    unfold cacheKey
    rw [h]

/-- C8 witness: the amended theorem applied to concrete `'_'`-free inputs. -/
theorem claim_C8_witness :
    (("a" : String) = "a" ∧ ("b" : String) = "b" ∧ ([] : List String) = []) ∧
    cacheKey "a" "b" [] = cacheKey "a" "b" [] :=
  ⟨claim_C8_theorem.1 "a" "b" "a" "b" [] [] (by decide) (by decide) (by simp)
      (by decide) (by decide) (by simp) rfl,
    claim_C8_theorem.2 "a" "b" "a" "b" [] [] rfl⟩
